import Mathlib

/-!
Verification development for the orbitgo-backend portfolio pipeline.

The TypeScript sources are shallowly embedded as Lean functions:

* strings are modelled as `List Char` (written `Str`), built from Lean string
  literals via `String.data`; JavaScript's `includes`, `startsWith`, `split`
  and template literals become the corresponding list operations;
* JavaScript numbers (`value_usd` and its sums) are modelled as `ℚ`;
* the Cloudflare KV namespace `PORTFOLIO_KV` is an association list from keys
  to stored values; a stored value is either a well-formed record (the JSON
  object `{status, data?, error?, timestamp}` the workers write) or `corrupt`,
  in which case `JSON.parse` throws; throwing code is modelled with `Except`;
* `crypto.randomUUID()` and `Date.now()` are injected as parameters;
* `Promise.all(chains.map ...)` in `aggregatePortfolio` only permutes the
  order in which per-chain entries are pushed and in which the commutative
  total is accumulated; we model the registry order.
-/

set_option maxRecDepth 16384

/-- Characters of a JavaScript string. -/
abbrev Str := List Char

/-- One entry of `PortfolioResponse.result` (src/services/webhookService.ts,
`PortfolioPosition`): a position carrying a USD value. -/
structure PortfolioPosition where
  value_usd : ℚ
deriving Repr, DecidableEq

/-- The normalized 1inch payload (`PortfolioResponse`): the `result` array of
positions. -/
structure PortfolioResponse where
  result : List PortfolioPosition
deriving Repr, DecidableEq

/-- The JSON object the workers persist to KV:
`{status, data?, error?, timestamp}` (src/services/inchService.ts and
src/queue/portfolioQueue.ts `PORTFOLIO_KV.put` call sites). -/
structure StoredRecord where
  status : Str
  error : Option Str
  data : Option PortfolioResponse
  timestamp : Nat
deriving Repr, DecidableEq

/-- A value held by the KV store: either a record that `JSON.parse` yields, or
a corrupt string on which `JSON.parse` throws. -/
inductive StoredValue where
  | corrupt : StoredValue
  | record : StoredRecord → StoredValue
deriving Repr, DecidableEq

/-- The `PORTFOLIO_KV` namespace: key/value pairs, each key bound at most
once (maintained by `kvPut`). -/
abbrev KV := List (Str × StoredValue)

/-- Model of `PORTFOLIO_KV.get(key)`. -/
def kvGet (kv : KV) (k : Str) : Option StoredValue :=
  (kv.find? (fun p => p.1 == k)).map (fun p => p.2)

/-- Model of `PORTFOLIO_KV.put(key, value)`: a later put with the same key
overwrites the earlier binding. -/
def kvPut (kv : KV) (k : Str) (v : StoredValue) : KV :=
  kv.filter (fun p => !(p.1 == k)) ++ [(k, v)]

/-- Model of `PORTFOLIO_KV.list({ prefix: pat })`: the names of the keys that
start with `pat`. -/
def kvList (kv : KV) (pat : Str) : List Str :=
  (kv.map Prod.fst).filter (fun k => pat.isPrefixOf k)

/-- The static chain registry `InchService.CHAIN_NAMES`
(src/services/webhookService.ts lines 249-259), in source order. -/
def CHAIN_NAMES : List (Nat × Str) :=
  [ (1, "Ethereum".data)
  , (56, "BSC".data)
  , (137, "Polygon".data)
  , (42161, "Arbitrum".data)
  , (10, "Optimism".data)
  , (43114, "Avalanche".data)
  , (8453, "Base".data)
  , (324, "zkSync Era".data)
  , (59144, "Linea".data) ]

/-- `InchService.getSupportedChains()`: `Object.keys(CHAIN_NAMES).map(Number)`.
JavaScript enumerates integer-like object keys in ascending numeric order, so
the result is the ascending list of the nine registry ids. -/
def getSupportedChains : List Nat :=
  [1, 10, 56, 137, 324, 8453, 42161, 43114, 59144]

/-- Decimal digits of a chain id, as interpolated by template literals. -/
def natStr (n : Nat) : Str := Nat.toDigits 10 n

/-- `InchService.getChainName(chainId)`: the registry name, falling back to
`Chain {id}` when the id is unknown. -/
def getChainName (c : Nat) : Str :=
  match CHAIN_NAMES.find? (fun p => p.1 == c) with
  | some p => p.2
  | none => "Chain ".data ++ natStr c

/-- `InchService.isSupportedChain(chainId)`: `chainId in this.CHAIN_NAMES`. -/
def isSupportedChain (c : Nat) : Bool :=
  (CHAIN_NAMES.find? (fun p => p.1 == c)).isSome

/-- The per-chain summary pushed into `result.chains` (`ChainStatus` in
src/services/webhookService.ts). The `status` field is copied verbatim from
the stored record when it is not `completed`, so it stays a string. -/
structure ChainStatus where
  id : Nat
  name : Str
  status : Str
  error : Option Str
  data : Option PortfolioResponse
deriving Repr, DecidableEq

/-- The aggregate response (`AggregatedPortfolio` in
src/services/webhookService.ts). -/
structure AggregatedPortfolio where
  totalValueUsd : ℚ
  chains : List ChainStatus
  positions : List PortfolioPosition
deriving Repr

/-- What one chain's closure inside `Promise.all` contributes to the shared
`result` object: its `chains` entry, the positions it pushes, and the value it
adds to `totalValueUsd`. -/
structure ChainResult where
  entry : ChainStatus
  positions : List PortfolioPosition
  value : ℚ
deriving Repr

/-- The search pattern `portfolio-${address}` used by `aggregatePortfolio`. -/
def searchPattern (address : Str) : Str := "portfolio-".data ++ address

/-- The substring `-${chainId}-` a key name must contain to be grouped with
`chainId` by `aggregatePortfolio`. -/
def chainMarker (c : Nat) : Str := ['-'] ++ natStr c ++ ['-']

/-- The filter `keys.keys.filter(k => k.name.includes(`-${chainId}-`))`. -/
def candidateKeys (keys : List Str) (c : Nat) : List Str :=
  keys.filter (fun k => decide (chainMarker c <:+: k))

/-- Lexicographic comparison of key names by code point; the keys compared by
`aggregatePortfolio` (same address, same hyphen layout) are ordered the same
way by `localeCompare`. -/
def strLeB : Str → Str → Bool
  | [], _ => true
  | _ :: _, [] => false
  | a :: as, b :: bs => if a < b then true else if a = b then strLeB as bs else false

/-- Insertion step for `sortKeysDesc`. -/
def insertKeyDesc (x : Str) : List Str → List Str
  | [] => [x]
  | y :: ys => if strLeB y x then x :: y :: ys else y :: insertKeyDesc x ys

/-- Model of `.sort((a, b) => b.name.localeCompare(a.name))`: a
descending-sorted permutation of the candidate keys (the code only consumes
element `[0]`, the greatest key). -/
def sortKeysDesc : List Str → List Str
  | [] => []
  | x :: xs => insertKeyDesc x (sortKeysDesc xs)

/-- The key `aggregatePortfolio` selects for a chain: the first element of the
descending sort of that chain's candidate keys. -/
def selectKey (kv : KV) (address : Str) (c : Nat) : Option Str :=
  (sortKeysDesc (candidateKeys (kvList kv (searchPattern address)) c)).head?

/-- The value sum `data.result.reduce((sum, pos) => sum + pos.value_usd, 0)`. -/
def chainValue (d : PortfolioResponse) : ℚ :=
  (d.result.map PortfolioPosition.value_usd).sum

/-- The `not_found` entry pushed when a chain has no key or no stored data. -/
def notFoundEntry (c : Nat) : ChainStatus :=
  ⟨c, getChainName c, "not_found".data, none, none⟩

/-- The entry pushed by the per-chain `catch` block: status `failed` with the
generic message, never the internal error detail. -/
def internalErrorEntry (c : Nat) : ChainStatus :=
  ⟨c, getChainName c, "failed".data, some "Internal error while aggregating data".data, none⟩

/-- Reading and classifying one selected key, the part of the per-chain `try`
block after key selection: a `.error` value is a thrown exception (corrupt
stored JSON, or `data.result` accessed on a record without `data`). -/
def chainReadKey (kv : KV) (c : Nat) (k : Str) : Except Unit ChainResult :=
  match kvGet kv k with
  | none => .ok ⟨notFoundEntry c, [], 0⟩
  | some .corrupt => .error ()
  | some (.record r) =>
    if r.status ≠ "completed".data then
      .ok ⟨⟨c, getChainName c, r.status, r.error, none⟩, [], 0⟩
    else
      match r.data with
      | none => .error ()
      | some d => .ok ⟨⟨c, getChainName c, "completed".data, none, some d⟩, d.result, chainValue d⟩

/-- The whole per-chain `try` block of `aggregatePortfolio`. -/
def chainTry (kv : KV) (address : Str) (c : Nat) : Except Unit ChainResult :=
  match selectKey kv address c with
  | none => .ok ⟨notFoundEntry c, [], 0⟩
  | some k => chainReadKey kv c k

/-- One chain's closure inside `Promise.all`, `try` and `catch` together: an
exception is turned into the generic `failed` entry and the chain contributes
nothing to positions or totals. -/
def processChain (kv : KV) (address : Str) (c : Nat) : ChainResult :=
  match chainTry kv address c with
  | .ok res => res
  | .error _ => ⟨internalErrorEntry c, [], 0⟩

/-- `InchService.aggregatePortfolio(address)`
(src/services/webhookService.ts lines 368-463). -/
def aggregatePortfolio (address : Str) (kv : KV) : AggregatedPortfolio :=
  let rs := getSupportedChains.map (processChain kv address)
  { totalValueUsd := (rs.map ChainResult.value).sum
  , chains := rs.map ChainResult.entry
  , positions := (rs.map ChainResult.positions).flatten }

/-- The entry `aggregatePortfolio` reports for chain `c`. -/
def entryFor (res : AggregatedPortfolio) (c : Nat) : Option ChainStatus :=
  res.chains.find? (fun e => e.id == c)

example : getChainName 8453 = "Base".data := by decide
example : getChainName 2 = "Chain 2".data := by decide
example : isSupportedChain 999 = false := by decide
example : strLeB "abc".data "abd".data = true := by decide
example : sortKeysDesc ["ab".data, "b".data, "aa".data] = ["b".data, "ab".data, "aa".data] := by decide
example :
    candidateKeys ["portfolio-0xaa-1-x".data, "portfolio-0xaa-56-y".data] 1
      = ["portfolio-0xaa-1-x".data] := by decide

/-! Helper lemmas about the aggregator. -/

/-- A successful per-chain `try` block reports the chain id it ran for. -/
theorem chainTry_ok_id (kv : KV) (address : Str) (c : Nat) (res : ChainResult)
    (h : chainTry kv address c = .ok res) : res.entry.id = c := by
  unfold chainTry chainReadKey at h
  repeat' split at h
  all_goals cases h
  all_goals rfl

/-- Every branch of the per-chain closure reports the chain id it ran for. -/
theorem processChain_entry_id (kv : KV) (address : Str) (c : Nat) :
    (processChain kv address c).entry.id = c := by
  unfold processChain
  cases h : chainTry kv address c with
  | ok res => exact chainTry_ok_id kv address c res h
  | error e => rfl

/-- A chain whose closure throws contributes the generic failed entry, no
positions and value zero. -/
theorem processChain_of_error (kv : KV) (address : Str) (c : Nat)
    (h : chainTry kv address c = .error ()) :
    processChain kv address c = ⟨internalErrorEntry c, [], 0⟩ := by
  unfold processChain
  rw [h]

theorem entry_ids (kv : KV) (address : Str) (l : List Nat) :
    ((l.map (processChain kv address)).map ChainResult.entry).map ChainStatus.id = l := by
  induction l with
  | nil => rfl
  | cons x xs ih =>
    simp only [List.map_cons, processChain_entry_id, List.cons.injEq]
    exact ⟨trivial, ih⟩

/-- Looking an id up in the entries produced for a duplicate-free chain list
finds exactly that chain's entry. -/
theorem find_entry_map (kv : KV) (address : Str) (l : List Nat) (c : Nat)
    (hnd : l.Nodup) (hc : c ∈ l) :
    ((l.map (processChain kv address)).map ChainResult.entry).find? (fun e => e.id == c)
      = some (processChain kv address c).entry := by
  induction l with
  | nil => cases hc
  | cons x xs ih =>
    rcases List.mem_cons.mp hc with rfl | hmem
    · simp only [List.map_cons]
      exact List.find?_cons_of_pos _ (by simp [processChain_entry_id])
    · have hne : x ≠ c := by
        rintro rfl
        exact (List.nodup_cons.mp hnd).1 hmem
      simp only [List.map_cons]
      rw [List.find?_cons_of_neg _ (by simp [processChain_entry_id, hne])]
      exact ih (List.nodup_cons.mp hnd).2 hmem

/-- Dropping the value contributed by a chain whose contribution is zero
leaves the accumulated total unchanged. -/
theorem sum_value_filter_ne (kv : KV) (address : Str) (l : List Nat) (c : Nat)
    (h : (processChain kv address c).value = 0) :
    ((l.map (processChain kv address)).map ChainResult.value).sum
      = ((l.filter (fun x => !(x == c))).map
          (fun c2 => (processChain kv address c2).value)).sum := by
  induction l with
  | nil => rfl
  | cons x xs ih =>
    rw [List.map_cons, List.map_cons, List.sum_cons, List.filter_cons]
    by_cases hx : x = c
    · subst hx
      rw [if_neg (by simp), ih, h, zero_add]
    · rw [if_pos (by simp [hx]), List.map_cons, List.sum_cons, ih]

/-- Dropping the positions contributed by a chain that pushed none leaves the
accumulated position list unchanged. -/
theorem positions_filter_ne (kv : KV) (address : Str) (l : List Nat) (c : Nat)
    (h : (processChain kv address c).positions = []) :
    ((l.map (processChain kv address)).map ChainResult.positions).flatten
      = ((l.filter (fun x => !(x == c))).map
          (fun c2 => (processChain kv address c2).positions)).flatten := by
  induction l with
  | nil => rfl
  | cons x xs ih =>
    rw [List.map_cons, List.map_cons, List.flatten_cons, List.filter_cons]
    by_cases hx : x = c
    · subst hx
      rw [if_neg (by simp), ih, h, List.nil_append]
    · rw [if_pos (by simp [hx]), List.map_cons, List.flatten_cons, ih]

theorem getSupportedChains_nodup : getSupportedChains.Nodup := by decide

/-- Claim C1: for every address and store content the aggregation is total;
a chain whose record processing throws is reported as `failed` with the
generic message `Internal error while aggregating data`, while every other
chain's entry is still produced and the totals are exactly the contributions
of the remaining chains. -/
theorem aggregate_isolates_chain_failure (address : Str) (kv : KV) (c : Nat)
    (hc : c ∈ getSupportedChains)
    (herr : chainTry kv address c = .error ()) :
    ((aggregatePortfolio address kv).chains.map ChainStatus.id = getSupportedChains)
    ∧ entryFor (aggregatePortfolio address kv) c = some (internalErrorEntry c)
    ∧ (∀ c2 ∈ getSupportedChains, c2 ≠ c →
        entryFor (aggregatePortfolio address kv) c2 = some (processChain kv address c2).entry)
    ∧ (aggregatePortfolio address kv).totalValueUsd
        = (((getSupportedChains.filter (fun x => !(x == c))).map
            (fun c2 => (processChain kv address c2).value)).sum)
    ∧ (aggregatePortfolio address kv).positions
        = (((getSupportedChains.filter (fun x => !(x == c))).map
            (fun c2 => (processChain kv address c2).positions)).flatten) := by
  have hzero : processChain kv address c = ⟨internalErrorEntry c, [], 0⟩ :=
    processChain_of_error kv address c herr
  refine ⟨entry_ids kv address getSupportedChains, ?_, ?_, ?_, ?_⟩
  · show ((getSupportedChains.map (processChain kv address)).map ChainResult.entry).find?
      (fun e => e.id == c) = some (internalErrorEntry c)
    rw [find_entry_map kv address getSupportedChains c getSupportedChains_nodup hc, hzero]
  · intro c2 hc2 _
    exact find_entry_map kv address getSupportedChains c2 getSupportedChains_nodup hc2
  · exact sum_value_filter_ne kv address getSupportedChains c (by rw [hzero])
  · exact positions_filter_ne kv address getSupportedChains c (by rw [hzero])

/-! Concrete store exhibiting a corrupt record for chain 1. -/

def c1w_address : Str := "0xaaaaaaaaaaaaaaaaaaaaaaaaaaaaaaaaaaaaaaaa".data

def c1w_key : Str :=
  "portfolio-0xaaaaaaaaaaaaaaaaaaaaaaaaaaaaaaaaaaaaaaaa-1-11111111-1111-4111-8111-111111111111".data

def c1w_kv : KV := [(c1w_key, .corrupt)]

/-- Witness for claim C1 at a one-record store whose only record is corrupt
JSON for chain 1. -/
theorem aggregate_isolates_chain_failure_witness :
    (1 ∈ getSupportedChains ∧ chainTry c1w_kv c1w_address 1 = .error ())
    ∧ (((aggregatePortfolio c1w_address c1w_kv).chains.map ChainStatus.id = getSupportedChains)
      ∧ entryFor (aggregatePortfolio c1w_address c1w_kv) 1 = some (internalErrorEntry 1)
      ∧ (∀ c2 ∈ getSupportedChains, c2 ≠ 1 →
          entryFor (aggregatePortfolio c1w_address c1w_kv) c2
            = some (processChain c1w_kv c1w_address c2).entry)
      ∧ (aggregatePortfolio c1w_address c1w_kv).totalValueUsd
          = (((getSupportedChains.filter (fun x => !(x == 1))).map
              (fun c2 => (processChain c1w_kv c1w_address c2).value)).sum)
      ∧ (aggregatePortfolio c1w_address c1w_kv).positions
          = (((getSupportedChains.filter (fun x => !(x == 1))).map
              (fun c2 => (processChain c1w_kv c1w_address c2).positions)).flatten)) :=
  ⟨⟨by decide, by rfl⟩,
    aggregate_isolates_chain_failure c1w_address c1w_kv 1 (by decide) (by rfl)⟩

/-! Submission path: the Cloudflare Queue message and the enqueue calls
(src/services/webhookService.ts lines 277-315, src/routes/portfolio.ts POST
/fetch). -/

/-- A `PortfolioQueueMessage`: the object `enqueuePortfolioRequest` sends to
`env.portfolio_queue`. -/
structure QueueMsg where
  chainId : Nat
  address : Str
  requestId : Str
  timestamp : Nat
deriving Repr, DecidableEq

/-- `InchService.enqueuePortfolioRequest(chainId, address)`: generate a fresh
UUID (injected here as `uuid`), send the message to the queue, and return the
requestId to the caller at once; no validation and no other effect. -/
def enqueuePortfolioRequest (chainId : Nat) (address : Str) (uuid : Str) (now : Nat)
    (q : List QueueMsg) : Str × List QueueMsg :=
  (uuid, q ++ [⟨chainId, address, uuid, now⟩])

/-- The `POST /fetch` route body (src/routes/portfolio.ts lines 240-257): it
parses `chainId` and `address` from the request and calls
`enqueuePortfolioRequest` directly, with no validation of either field. -/
def postFetchRoute (chainId : Nat) (address : Str) (uuid : Str) (now : Nat)
    (q : List QueueMsg) : Str × List QueueMsg :=
  enqueuePortfolioRequest chainId address uuid now q

/-- Recursion of `enqueueMultichainPortfolioRequest` over the registry chains:
one `enqueuePortfolioRequest` call per chain, each with its own fresh UUID
(`uuids i` for the i-th call). -/
def enqueueMultichainGo (address : Str) (uuids : Nat → Str) (now : Nat) :
    List Nat → Nat → List QueueMsg → List Str × List QueueMsg
  | [], _, q => ([], q)
  | c :: cs, i, q =>
    let step := enqueuePortfolioRequest c address (uuids i) now q
    let rest := enqueueMultichainGo address uuids now cs (i + 1) step.2
    (step.1 :: rest.1, rest.2)

/-- `InchService.enqueueMultichainPortfolioRequest(address)`: enqueue one
request per chain of `getSupportedChains()` and return all requestIds. -/
def enqueueMultichainPortfolioRequest (address : Str) (uuids : Nat → Str) (now : Nat)
    (q : List QueueMsg) : List Str × List QueueMsg :=
  enqueueMultichainGo address uuids now getSupportedChains 0 q

theorem enqueueMultichainGo_chainIds (address : Str) (uuids : Nat → Str) (now : Nat)
    (cs : List Nat) : ∀ (i : Nat) (q : List QueueMsg),
    (enqueueMultichainGo address uuids now cs i q).2.map QueueMsg.chainId
      = q.map QueueMsg.chainId ++ cs := by
  induction cs with
  | nil => intro i q; simp [enqueueMultichainGo]
  | cons c cs ih =>
    intro i q
    simp [enqueueMultichainGo, enqueuePortfolioRequest, ih]

/-- Claim C9: the aggregate reports exactly one entry per registry chain (the
nine ids of `CHAIN_NAMES`) and no other chain, for every address and store;
and multichain submission enqueues exactly one job per chain of the same
registry list. -/
theorem registry_set_shared_by_read_and_write (address : Str) (kv : KV)
    (uuids : Nat → Str) (now : Nat) :
    ((aggregatePortfolio address kv).chains.map ChainStatus.id = getSupportedChains)
    ∧ (∀ c, c ∈ getSupportedChains ↔ isSupportedChain c = true)
    ∧ getSupportedChains.Perm (CHAIN_NAMES.map Prod.fst)
    ∧ getSupportedChains.length = 9
    ∧ ((enqueueMultichainPortfolioRequest address uuids now []).2.map QueueMsg.chainId
        = getSupportedChains) := by
  refine ⟨entry_ids kv address getSupportedChains, ?_, by decide, by decide, ?_⟩
  · intro c
    show c ∈ getSupportedChains ↔ ((CHAIN_NAMES.find? (fun p => p.1 == c)).isSome = true)
    rw [List.find?_isSome]
    constructor
    · intro h
      fin_cases h <;> decide
    · rintro ⟨p, hp, hc⟩
      have : p.1 = c := by simpa using hc
      subst this
      fin_cases hp <;> decide
  · show (enqueueMultichainGo address uuids now getSupportedChains 0 []).2.map QueueMsg.chainId
      = getSupportedChains
    rw [enqueueMultichainGo_chainIds]
    rfl

/-! Claim C10: how keys are grouped with chains. -/

/-- JavaScript `s.split("-")`. -/
def splitOnDash (l : Str) : List Str :=
  l.foldr
    (fun ch acc =>
      if ch = '-' then [] :: acc
      else
        match acc with
        | s :: rest => (ch :: s) :: rest
        | [] => [[ch]])
    [[]]

/-- The `chainId` field of a composite key, per the documented layout
`portfolio-{address}-{chainId}-{requestId}` (an address contains no hyphen, so
the field is the third hyphen-separated segment). -/
def parseChainIdField (k : Str) : Option Str := (splitOnDash k)[2]?

example : splitOnDash "a-b--c".data = ["a".data, "b".data, "".data, "c".data] := by decide

def c10w_address : Str := "0xaaaaaaaaaaaaaaaaaaaaaaaaaaaaaaaaaaaaaaaa".data

/-- A key written by the worker for chain 1, whose UUID happens to contain the
hyphen-delimited group `8453` (a legal version-4 UUID second group). -/
def c10w_key : Str :=
  "portfolio-0xaaaaaaaaaaaaaaaaaaaaaaaaaaaaaaaaaaaaaaaa-1-deadbeef-8453-4abc-9def-0123456789ab".data

def c10w_payload : PortfolioResponse := ⟨[⟨500⟩]⟩

def c10w_kv : KV := [(c10w_key, .record ⟨"completed".data, none, some c10w_payload, 7⟩)]

/-- Claim C10: a key is grouped with chain `c` exactly when its name contains
the substring `-{c}-` anywhere, not by parsing the key's chainId field; hence
the store above, whose only record's key has chainId field `1`, is selected
and reported as chain 8453's record (with chain 1 reporting it too). -/
theorem chain_grouping_is_substring_containment :
    (∀ (keys : List Str) (c : Nat) (k : Str),
      k ∈ candidateKeys keys c ↔ (k ∈ keys ∧ chainMarker c <:+: k))
    ∧ parseChainIdField c10w_key = some "1".data
    ∧ selectKey c10w_kv c10w_address 8453 = some c10w_key
    ∧ entryFor (aggregatePortfolio c10w_address c10w_kv) 8453
        = some ⟨8453, "Base".data, "completed".data, none, some c10w_payload⟩
    ∧ entryFor (aggregatePortfolio c10w_address c10w_kv) 1
        = some ⟨1, "Ethereum".data, "completed".data, none, some c10w_payload⟩ := by
  refine ⟨?_, by rfl, by rfl, by rfl, by rfl⟩
  intro keys c k
  simp [candidateKeys, List.mem_filter]

/-! Per-branch computation lemmas for the per-chain closure. -/

theorem processChain_not_found (kv : KV) (address : Str) (c : Nat)
    (hsel : selectKey kv address c = none) :
    processChain kv address c = ⟨notFoundEntry c, [], 0⟩ := by
  unfold processChain chainTry
  rw [hsel]

theorem chainReadKey_completed (kv : KV) (c : Nat) (k : Str)
    (pA : PortfolioResponse) (ts : Nat)
    (hget : kvGet kv k = some (.record ⟨"completed".data, none, some pA, ts⟩)) :
    chainReadKey kv c k
      = .ok ⟨⟨c, getChainName c, "completed".data, none, some pA⟩, pA.result, chainValue pA⟩ := by
  unfold chainReadKey
  rw [hget]
  simp

theorem chainReadKey_not_completed (kv : KV) (c : Nat) (k : Str) (r : StoredRecord)
    (hget : kvGet kv k = some (.record r)) (hst : r.status ≠ "completed".data) :
    chainReadKey kv c k = .ok ⟨⟨c, getChainName c, r.status, r.error, none⟩, [], 0⟩ := by
  unfold chainReadKey
  rw [hget]
  simp [hst]

theorem processChain_selected (kv : KV) (address : Str) (c : Nat) (k : Str)
    (hsel : selectKey kv address c = some k) (res : ChainResult)
    (hread : chainReadKey kv c k = .ok res) :
    processChain kv address c = res := by
  unfold processChain chainTry
  rw [hsel]
  show (match chainReadKey kv c k with
        | Except.ok r => r
        | Except.error _ => ⟨internalErrorEntry c, [], 0⟩) = res
  rw [hread]

/-! Accumulation lemmas: only chains with nonzero contributions matter. -/

theorem sum_value_zero (kv : KV) (address : Str) (l : List Nat)
    (h : ∀ c ∈ l, (processChain kv address c).value = 0) :
    ((l.map (processChain kv address)).map ChainResult.value).sum = 0 := by
  induction l with
  | nil => rfl
  | cons x xs ih =>
    rw [List.map_cons, List.map_cons, List.sum_cons, h x (List.mem_cons_self x xs),
      ih (fun c hc => h c (List.mem_cons_of_mem x hc)), add_zero]

theorem sum_value_single (kv : KV) (address : Str) (l : List Nat) (A : Nat)
    (hnd : l.Nodup) (hA : A ∈ l)
    (h : ∀ c ∈ l, c ≠ A → (processChain kv address c).value = 0) :
    ((l.map (processChain kv address)).map ChainResult.value).sum
      = (processChain kv address A).value := by
  induction l with
  | nil => cases hA
  | cons x xs ih =>
    rw [List.map_cons, List.map_cons, List.sum_cons]
    rcases List.mem_cons.mp hA with rfl | hmem
    · rw [sum_value_zero kv address xs
        (fun c hc => h c (List.mem_cons_of_mem _ hc)
          (fun hcx => (List.nodup_cons.mp hnd).1 (hcx ▸ hc))), add_zero]
    · rw [h x (List.mem_cons_self x xs)
        (fun hxA => (List.nodup_cons.mp hnd).1 (hxA ▸ hmem)), zero_add]
      exact ih (List.nodup_cons.mp hnd).2 hmem
        (fun c hc hne => h c (List.mem_cons_of_mem x hc) hne)

theorem positions_flatten_nil (kv : KV) (address : Str) (l : List Nat)
    (h : ∀ c ∈ l, (processChain kv address c).positions = []) :
    ((l.map (processChain kv address)).map ChainResult.positions).flatten = [] := by
  induction l with
  | nil => rfl
  | cons x xs ih =>
    rw [List.map_cons, List.map_cons, List.flatten_cons, h x (List.mem_cons_self x xs),
      ih (fun c hc => h c (List.mem_cons_of_mem x hc)), List.nil_append]

theorem positions_single (kv : KV) (address : Str) (l : List Nat) (A : Nat)
    (hnd : l.Nodup) (hA : A ∈ l)
    (h : ∀ c ∈ l, c ≠ A → (processChain kv address c).positions = []) :
    ((l.map (processChain kv address)).map ChainResult.positions).flatten
      = (processChain kv address A).positions := by
  induction l with
  | nil => cases hA
  | cons x xs ih =>
    rw [List.map_cons, List.map_cons, List.flatten_cons]
    rcases List.mem_cons.mp hA with rfl | hmem
    · rw [positions_flatten_nil kv address xs
        (fun c hc => h c (List.mem_cons_of_mem _ hc)
          (fun hcx => (List.nodup_cons.mp hnd).1 (hcx ▸ hc))), List.append_nil]
    · rw [h x (List.mem_cons_self x xs)
        (fun hxA => (List.nodup_cons.mp hnd).1 (hxA ▸ hmem)), List.nil_append]
      exact ih (List.nodup_cons.mp hnd).2 hmem
        (fun c hc hne => h c (List.mem_cons_of_mem x hc) hne)

/-- Claim C2: with chain A completed, chain B failed, chain C without a record
and every remaining registry chain without a record, the aggregate reports the
three statuses, sums only chain A's position values and concatenates only the
completed chains' positions. -/
theorem partial_aggregation (kv : KV) (address : Str) (A B C : Nat) (kA kB : Str)
    (pA : PortfolioResponse) (errB : Str) (tsA tsB : Nat)
    (hA : A ∈ getSupportedChains) (hB : B ∈ getSupportedChains) (hC : C ∈ getSupportedChains)
    (hAB : A ≠ B) (hAC : A ≠ C) (hBC : B ≠ C)
    (hselA : selectKey kv address A = some kA)
    (hgetA : kvGet kv kA = some (.record ⟨"completed".data, none, some pA, tsA⟩))
    (hselB : selectKey kv address B = some kB)
    (hgetB : kvGet kv kB = some (.record ⟨"failed".data, some errB, none, tsB⟩))
    (hselC : selectKey kv address C = none)
    (hOther : ∀ c ∈ getSupportedChains, c ≠ A → c ≠ B → c ≠ C →
      selectKey kv address c = none) :
    entryFor (aggregatePortfolio address kv) A
        = some ⟨A, getChainName A, "completed".data, none, some pA⟩
    ∧ entryFor (aggregatePortfolio address kv) B
        = some ⟨B, getChainName B, "failed".data, some errB, none⟩
    ∧ entryFor (aggregatePortfolio address kv) C = some (notFoundEntry C)
    ∧ (aggregatePortfolio address kv).totalValueUsd = chainValue pA
    ∧ (aggregatePortfolio address kv).positions = pA.result := by
  have hpA : processChain kv address A
      = ⟨⟨A, getChainName A, "completed".data, none, some pA⟩, pA.result, chainValue pA⟩ :=
    processChain_selected kv address A kA hselA _
      (chainReadKey_completed kv A kA pA tsA hgetA)
  have hstB : ("failed".data : Str) ≠ "completed".data := by decide
  have hpB : processChain kv address B
      = ⟨⟨B, getChainName B, "failed".data, some errB, none⟩, [], 0⟩ :=
    processChain_selected kv address B kB hselB _
      (chainReadKey_not_completed kv B kB _ hgetB hstB)
  have hpC : processChain kv address C = ⟨notFoundEntry C, [], 0⟩ :=
    processChain_not_found kv address C hselC
  have hrest : ∀ c ∈ getSupportedChains, c ≠ A → processChain kv address c
      = ⟨notFoundEntry c, [], 0⟩ ∨ processChain kv address c
      = ⟨⟨B, getChainName B, "failed".data, some errB, none⟩, [], 0⟩ := by
    intro c hc hne
    by_cases hcB : c = B
    · subst hcB
      exact Or.inr hpB
    · by_cases hcC : c = C
      · subst hcC
        exact Or.inl hpC
      · exact Or.inl (processChain_not_found kv address c (hOther c hc hne hcB hcC))
  have hval0 : ∀ c ∈ getSupportedChains, c ≠ A → (processChain kv address c).value = 0 := by
    intro c hc hne
    rcases hrest c hc hne with h | h <;> rw [h]
  have hpos0 : ∀ c ∈ getSupportedChains, c ≠ A →
      (processChain kv address c).positions = [] := by
    intro c hc hne
    rcases hrest c hc hne with h | h <;> rw [h]
  refine ⟨?_, ?_, ?_, ?_, ?_⟩
  · rw [show entryFor (aggregatePortfolio address kv) A
        = ((getSupportedChains.map (processChain kv address)).map ChainResult.entry).find?
          (fun e => e.id == A) from rfl,
      find_entry_map kv address getSupportedChains A getSupportedChains_nodup hA, hpA]
  · rw [show entryFor (aggregatePortfolio address kv) B
        = ((getSupportedChains.map (processChain kv address)).map ChainResult.entry).find?
          (fun e => e.id == B) from rfl,
      find_entry_map kv address getSupportedChains B getSupportedChains_nodup hB, hpB]
  · rw [show entryFor (aggregatePortfolio address kv) C
        = ((getSupportedChains.map (processChain kv address)).map ChainResult.entry).find?
          (fun e => e.id == C) from rfl,
      find_entry_map kv address getSupportedChains C getSupportedChains_nodup hC, hpC]
  · rw [show (aggregatePortfolio address kv).totalValueUsd
        = ((getSupportedChains.map (processChain kv address)).map ChainResult.value).sum
        from rfl,
      sum_value_single kv address getSupportedChains A getSupportedChains_nodup hA hval0, hpA]
  · rw [show (aggregatePortfolio address kv).positions
        = ((getSupportedChains.map (processChain kv address)).map ChainResult.positions).flatten
        from rfl,
      positions_single kv address getSupportedChains A getSupportedChains_nodup hA hpos0, hpA]

/-! Concrete store for the partial-aggregation scenario: chain 1 completed,
chain 56 failed, chain 137 (and the rest) without a record. -/

def c2w_address : Str := "0xaaaaaaaaaaaaaaaaaaaaaaaaaaaaaaaaaaaaaaaa".data

def c2w_kA : Str :=
  "portfolio-0xaaaaaaaaaaaaaaaaaaaaaaaaaaaaaaaaaaaaaaaa-1-22222222-2222-4222-8222-222222222222".data

def c2w_kB : Str :=
  "portfolio-0xaaaaaaaaaaaaaaaaaaaaaaaaaaaaaaaaaaaaaaaa-56-33333333-3333-4333-8333-333333333333".data

def c2w_pA : PortfolioResponse := ⟨[⟨500⟩]⟩

def c2w_kv : KV :=
  [ (c2w_kA, .record ⟨"completed".data, none, some c2w_pA, 1⟩)
  , (c2w_kB, .record ⟨"failed".data, some "boom".data, none, 2⟩) ]

/-- Witness for claim C2 at the concrete three-chain scenario. -/
theorem partial_aggregation_witness :
    (1 ∈ getSupportedChains ∧ 56 ∈ getSupportedChains ∧ 137 ∈ getSupportedChains
      ∧ selectKey c2w_kv c2w_address 1 = some c2w_kA
      ∧ kvGet c2w_kv c2w_kA = some (.record ⟨"completed".data, none, some c2w_pA, 1⟩)
      ∧ selectKey c2w_kv c2w_address 56 = some c2w_kB
      ∧ kvGet c2w_kv c2w_kB = some (.record ⟨"failed".data, some "boom".data, none, 2⟩)
      ∧ selectKey c2w_kv c2w_address 137 = none
      ∧ (∀ c ∈ getSupportedChains, c ≠ 1 → c ≠ 56 → c ≠ 137 →
          selectKey c2w_kv c2w_address c = none))
    ∧ (entryFor (aggregatePortfolio c2w_address c2w_kv) 1
          = some ⟨1, getChainName 1, "completed".data, none, some c2w_pA⟩
      ∧ entryFor (aggregatePortfolio c2w_address c2w_kv) 56
          = some ⟨56, getChainName 56, "failed".data, some "boom".data, none⟩
      ∧ entryFor (aggregatePortfolio c2w_address c2w_kv) 137 = some (notFoundEntry 137)
      ∧ (aggregatePortfolio c2w_address c2w_kv).totalValueUsd = chainValue c2w_pA
      ∧ (aggregatePortfolio c2w_address c2w_kv).positions = c2w_pA.result) :=
  ⟨⟨by decide, by decide, by decide, by rfl, by rfl, by rfl, by rfl, by rfl, by decide⟩,
    partial_aggregation c2w_kv c2w_address 1 56 137 c2w_kA c2w_kB c2w_pA "boom".data 1 2
      (by decide) (by decide) (by decide) (by decide) (by decide) (by decide)
      (by rfl) (by rfl) (by rfl) (by rfl) (by rfl) (by decide)⟩

/-! Order facts about key comparison and the descending sort. -/

theorem strLeB_refl (a : Str) : strLeB a a = true := by
  induction a with
  | nil => rfl
  | cons c cs ih => simp [strLeB, lt_irrefl, ih]

theorem strLeB_total (a b : Str) : strLeB a b = true ∨ strLeB b a = true := by
  induction a generalizing b with
  | nil => exact Or.inl rfl
  | cons x as ih =>
    cases b with
    | nil => exact Or.inr rfl
    | cons y bs =>
      rcases lt_trichotomy x y with h | h | h
      · exact Or.inl (by simp [strLeB, h])
      · subst h
        rcases ih bs with hl | hr
        · exact Or.inl (by simp [strLeB, lt_irrefl, hl])
        · exact Or.inr (by simp [strLeB, lt_irrefl, hr])
      · exact Or.inr (by simp [strLeB, h])

theorem strLeB_trans (a b c : Str) (h1 : strLeB a b = true) (h2 : strLeB b c = true) :
    strLeB a c = true := by
  induction a generalizing b c with
  | nil => rfl
  | cons x as ih =>
    cases b with
    | nil => simp [strLeB] at h1
    | cons y bs =>
      cases c with
      | nil => simp [strLeB] at h2
      | cons z cs =>
        by_cases hxy : x < y
        · by_cases hyz : y < z
          · simp [strLeB, lt_trans hxy hyz]
          · by_cases hyz2 : y = z
            · subst hyz2
              simp [strLeB, hxy]
            · simp [strLeB, hyz, hyz2] at h2
        · by_cases hxy2 : x = y
          · subst hxy2
            simp only [strLeB, if_neg hxy, if_pos rfl] at h1
            by_cases hyz : x < z
            · simp [strLeB, hyz]
            · by_cases hyz2 : x = z
              · subst hyz2
                simp only [strLeB, if_neg hyz, if_pos rfl] at h2 ⊢
                exact ih bs cs h1 h2
              · simp [strLeB, hyz, hyz2] at h2
          · simp [strLeB, hxy, hxy2] at h1

theorem mem_insertKeyDesc (x a : Str) (l : List Str) :
    a ∈ insertKeyDesc x l ↔ a = x ∨ a ∈ l := by
  induction l with
  | nil => simp [insertKeyDesc]
  | cons y ys ih =>
    by_cases h : strLeB y x = true
    · simp [insertKeyDesc, h, List.mem_cons]
    · simp only [insertKeyDesc, if_neg h, List.mem_cons, ih]
      tauto

/-- The head of the descending insertion sort is a maximum of the list. -/
theorem sortKeysDesc_head_max (l : List Str) (hne : l ≠ []) :
    ∃ m, (sortKeysDesc l).head? = some m ∧ m ∈ l ∧ ∀ a ∈ l, strLeB a m = true := by
  induction l with
  | nil => cases hne rfl
  | cons x xs ih =>
    cases hxs : xs with
    | nil =>
      refine ⟨x, by simp [sortKeysDesc, insertKeyDesc], by simp, ?_⟩
      intro a ha
      rcases List.mem_cons.mp ha with rfl | h
      · exact strLeB_refl a
      · simp [hxs] at h
    | cons y ys =>
      subst hxs
      obtain ⟨m, hm1, hm2, hm3⟩ := ih (by simp)
      cases hs : sortKeysDesc (y :: ys) with
      | nil => rw [hs] at hm1; cases hm1
      | cons m' rest =>
        rw [hs] at hm1
        have hmm : m = m' := by simpa using hm1.symm
        subst hmm
        by_cases hmx : strLeB m x = true
        · refine ⟨x, ?_, by simp, ?_⟩
          · show (insertKeyDesc x (sortKeysDesc (y :: ys))).head? = some x
            rw [hs]
            simp [insertKeyDesc, hmx]
          · intro a ha
            rcases List.mem_cons.mp ha with rfl | h
            · exact strLeB_refl a
            · exact strLeB_trans a m x (hm3 a h) hmx
        · have hxm : strLeB x m = true := by
            rcases strLeB_total x m with h | h
            · exact h
            · exact absurd h hmx
          refine ⟨m, ?_, List.mem_cons_of_mem x hm2, ?_⟩
          · show (insertKeyDesc x (sortKeysDesc (y :: ys))).head? = some m
            rw [hs]
            simp [insertKeyDesc, hmx]
          · intro a ha
            rcases List.mem_cons.mp ha with rfl | h
            · exact hxm
            · exact hm3 a h

/-- Claim C6: when a chain has two (or more) stored records under different
keys, `aggregatePortfolio` selects the lexicographically greatest key of that
chain's candidate group, and the chain's reported entry is computed from that
key's record; this holds for every registry chain independently. -/
theorem most_recent_record_wins (kv : KV) (address : Str) (c : Nat) (k1 k2 : Str)
    (hc : c ∈ getSupportedChains)
    (h1 : k1 ∈ candidateKeys (kvList kv (searchPattern address)) c)
    (h2 : k2 ∈ candidateKeys (kvList kv (searchPattern address)) c)
    (hne : k1 ≠ k2) :
    ∃ m, selectKey kv address c = some m
      ∧ m ∈ candidateKeys (kvList kv (searchPattern address)) c
      ∧ (∀ k ∈ candidateKeys (kvList kv (searchPattern address)) c, strLeB k m = true)
      ∧ chainTry kv address c = chainReadKey kv c m
      ∧ entryFor (aggregatePortfolio address kv) c = some (processChain kv address c).entry := by
  obtain ⟨m, hm1, hm2, hm3⟩ :=
    sortKeysDesc_head_max (candidateKeys (kvList kv (searchPattern address)) c)
      (List.ne_nil_of_mem h1)
  refine ⟨m, hm1, hm2, hm3, ?_, ?_⟩
  · unfold chainTry
    rw [show selectKey kv address c
        = (sortKeysDesc (candidateKeys (kvList kv (searchPattern address)) c)).head?
        from rfl, hm1]
  · exact find_entry_map kv address getSupportedChains c getSupportedChains_nodup hc

/-! Concrete store with two records for chain 1 under different keys. -/

def c6w_address : Str := "0xaaaaaaaaaaaaaaaaaaaaaaaaaaaaaaaaaaaaaaaa".data

def c6w_kOld : Str :=
  "portfolio-0xaaaaaaaaaaaaaaaaaaaaaaaaaaaaaaaaaaaaaaaa-1-22222222-2222-4222-8222-222222222222".data

def c6w_kNew : Str :=
  "portfolio-0xaaaaaaaaaaaaaaaaaaaaaaaaaaaaaaaaaaaaaaaa-1-99999999-9999-4999-8999-999999999999".data

def c6w_kv : KV :=
  [ (c6w_kOld, .record ⟨"completed".data, none, some ⟨[⟨100⟩]⟩, 1⟩)
  , (c6w_kNew, .record ⟨"completed".data, none, some ⟨[⟨200⟩]⟩, 2⟩) ]

/-- Witness for claim C6: with two chain-1 keys the greater one is selected. -/
theorem most_recent_record_wins_witness :
    (1 ∈ getSupportedChains
      ∧ c6w_kOld ∈ candidateKeys (kvList c6w_kv (searchPattern c6w_address)) 1
      ∧ c6w_kNew ∈ candidateKeys (kvList c6w_kv (searchPattern c6w_address)) 1
      ∧ c6w_kOld ≠ c6w_kNew)
    ∧ (∃ m, selectKey c6w_kv c6w_address 1 = some m
      ∧ m ∈ candidateKeys (kvList c6w_kv (searchPattern c6w_address)) 1
      ∧ (∀ k ∈ candidateKeys (kvList c6w_kv (searchPattern c6w_address)) 1, strLeB k m = true)
      ∧ chainTry c6w_kv c6w_address 1 = chainReadKey c6w_kv 1 m
      ∧ entryFor (aggregatePortfolio c6w_address c6w_kv) 1
          = some (processChain c6w_kv c6w_address 1).entry)
    ∧ selectKey c6w_kv c6w_address 1 = some c6w_kNew :=
  ⟨⟨by decide, by decide, by decide, by decide⟩,
    most_recent_record_wins c6w_kv c6w_address 1 c6w_kOld c6w_kNew
      (by decide) (by decide) (by decide) (by decide),
    by rfl⟩

/-! The in-process worker `InchService.processQueue`
(src/services/inchService.ts lines 90-177): one loop iteration dequeues the
head request, invokes the Fetcher once, and either persists a completed
record, re-enqueues the request at the tail with `retryCount` incremented
(when `retryCount < MAX_RETRIES`), or persists a failed record. The Fetcher
outcome is an oracle `fetch`; a request's `retryCount` distinguishes its
successive attempts. `Date.now()` at step `n` is injected as `n`. -/

def MAX_RETRIES : Nat := 3

/-- A `QueuedRequest`: one unit of work owned by the in-process queue. -/
structure QueuedRequest where
  chainId : Nat
  address : Str
  requestId : Str
  retryCount : Nat
  timestamp : Nat
deriving Repr, DecidableEq

/-- The worker-visible state: the in-process queue and the KV store. -/
structure QueueState where
  queue : List QueuedRequest
  kv : KV
deriving Repr

/-- One iteration of the `while (this.queue.length > 0)` loop of
`processQueue`. On success the completed record is persisted under the
requestId and the head is dropped; on failure with remaining budget the
request is moved to the tail with `retryCount + 1`; on failure with the
budget exhausted the failed record is persisted and the head is dropped. -/
def stepQ (fetch : QueuedRequest → Except Str PortfolioResponse) (now : Nat)
    (st : QueueState) : QueueState :=
  match st.queue with
  | [] => st
  | j :: rest =>
    match fetch j with
    | .ok d =>
      ⟨rest, kvPut st.kv j.requestId (.record ⟨"completed".data, none, some d, now⟩)⟩
    | .error msg =>
      if j.retryCount < MAX_RETRIES then
        ⟨rest ++ [{ j with retryCount := j.retryCount + 1 }], st.kv⟩
      else
        ⟨rest, kvPut st.kv j.requestId (.record ⟨"failed".data, some msg, none, now⟩)⟩

/-- The state after `n` loop iterations. -/
def runQ (fetch : QueuedRequest → Except Str PortfolioResponse) (st0 : QueueState) :
    Nat → QueueState
  | 0 => st0
  | n + 1 => stepQ fetch n (runQ fetch st0 n)

/-- The requestId the Fetcher is invoked for at a given iteration (none when
the queue is empty and the loop has exited). -/
def headRequestId (st : QueueState) : Option Str :=
  st.queue.head?.map QueuedRequest.requestId

/-- How many Fetcher invocations the first `n` iterations performed for the
job with requestId `r`. -/
def fetchCount (fetch : QueuedRequest → Except Str PortfolioResponse)
    (st0 : QueueState) (r : Str) (n : Nat) : Nat :=
  (List.range n).countP (fun i =>
    match headRequestId (runQ fetch st0 i) with
    | some x => x == r
    | none => false)

/-- Occurrences of requestId `r` in a queue. -/
def countR (q : List QueuedRequest) (r : Str) : Nat :=
  (q.filter (fun j => j.requestId == r)).length

/-- Remaining-attempt measure of a queue; it strictly decreases at every
iteration on a nonempty queue. -/
def queueMeasure (q : List QueuedRequest) : Nat :=
  (q.map (fun j => 5 - min j.retryCount 4)).sum

theorem kvGet_append_last (l : KV) (k : Str) (v : StoredValue)
    (h : ∀ p ∈ l, p.1 ≠ k) :
    kvGet (l ++ [(k, v)]) k = some v := by
  induction l with
  | nil => simp [kvGet]
  | cons p ps ih =>
    rw [List.cons_append]
    unfold kvGet
    rw [List.find?_cons_of_neg _ (by simp [h p (List.mem_cons_self p ps)])]
    exact ih (fun q hq => h q (List.mem_cons_of_mem p hq))

theorem kvGet_put_self (kv : KV) (k : Str) (v : StoredValue) :
    kvGet (kvPut kv k v) k = some v := by
  unfold kvPut
  refine kvGet_append_last _ k v ?_
  intro p hp
  have := (List.mem_filter.mp hp).2
  simp at this
  exact this

theorem kvGet_put_ne (kv : KV) (k k2 : Str) (v : StoredValue) (hne : k2 ≠ k) :
    kvGet (kvPut kv k v) k2 = kvGet kv k2 := by
  induction kv with
  | nil =>
    have hkk : ¬ ((k, v).1 = k2) := fun h => hne h.symm
    unfold kvGet kvPut
    rw [List.filter_nil, List.nil_append, List.find?_cons_of_neg _ (by simp [hkk])]
  | cons p ps ih =>
    by_cases h : p.1 = k
    · have hp2 : ¬ (p.1 = k2) := by rw [h]; exact fun hh => hne hh.symm
      unfold kvGet kvPut
      rw [List.filter_cons, if_neg (by simp [h]), List.find?_cons_of_neg _ (by simp [hp2])]
      exact ih
    · by_cases h2 : p.1 = k2
      · unfold kvGet kvPut
        rw [List.filter_cons, if_pos (by simp [h]), List.cons_append,
          List.find?_cons_of_pos _ (by simp [h2]), List.find?_cons_of_pos _ (by simp [h2])]
      · unfold kvGet kvPut
        rw [List.filter_cons, if_pos (by simp [h]), List.cons_append,
          List.find?_cons_of_neg _ (by simp [h2]), List.find?_cons_of_neg _ (by simp [h2])]
        exact ih

theorem countR_cons (j : QueuedRequest) (q : List QueuedRequest) (r : Str) :
    countR (j :: q) r = (if j.requestId = r then 1 else 0) + countR q r := by
  by_cases h : j.requestId = r
  · simp [countR, List.filter_cons, h, Nat.add_comm]
  · simp [countR, List.filter_cons, h]

theorem countR_append (q1 q2 : List QueuedRequest) (r : Str) :
    countR (q1 ++ q2) r = countR q1 r + countR q2 r := by
  simp [countR, List.filter_append]

theorem countR_zero_not_mem (q : List QueuedRequest) (r : Str)
    (h : countR q r = 0) : ∀ j ∈ q, j.requestId ≠ r := by
  intro j hj hr
  have hmem : j ∈ q.filter (fun j => j.requestId == r) :=
    List.mem_filter.mpr ⟨hj, by simp [hr]⟩
  unfold countR at h
  rw [List.length_eq_zero] at h
  rw [h] at hmem
  cases hmem

theorem fetchCount_succ (fetch : QueuedRequest → Except Str PortfolioResponse)
    (st0 : QueueState) (r : Str) (n : Nat) :
    fetchCount fetch st0 r (n + 1)
      = fetchCount fetch st0 r n
        + (if headRequestId (runQ fetch st0 n) = some r then 1 else 0) := by
  unfold fetchCount
  rw [List.range_succ, List.countP_append, List.countP_cons, List.countP_nil]
  congr 1
  cases h : headRequestId (runQ fetch st0 n) with
  | none => simp [h]
  | some x =>
    by_cases hx : x = r
    · subst hx
      simp [h]
    · simp [h, hx]

theorem runQ_succ (fetch : QueuedRequest → Except Str PortfolioResponse)
    (st0 : QueueState) (n : Nat) :
    runQ fetch st0 (n + 1) = stepQ fetch n (runQ fetch st0 n) := rfl

theorem stepQ_nil (fetch : QueuedRequest → Except Str PortfolioResponse) (now : Nat)
    (st : QueueState) (h : st.queue = []) : stepQ fetch now st = st := by
  simp only [stepQ, h]

theorem stepQ_ok (fetch : QueuedRequest → Except Str PortfolioResponse) (now : Nat)
    (st : QueueState) (j : QueuedRequest) (rest : List QueuedRequest)
    (d : PortfolioResponse) (h : st.queue = j :: rest) (hf : fetch j = .ok d) :
    stepQ fetch now st
      = ⟨rest, kvPut st.kv j.requestId (.record ⟨"completed".data, none, some d, now⟩)⟩ := by
  simp only [stepQ, h, hf]

theorem stepQ_retry (fetch : QueuedRequest → Except Str PortfolioResponse) (now : Nat)
    (st : QueueState) (j : QueuedRequest) (rest : List QueuedRequest) (msg : Str)
    (h : st.queue = j :: rest) (hf : fetch j = .error msg)
    (hrc : j.retryCount < MAX_RETRIES) :
    stepQ fetch now st
      = ⟨rest ++ [{ j with retryCount := j.retryCount + 1 }], st.kv⟩ := by
  simp only [stepQ, h, hf, if_pos hrc]

theorem stepQ_fail (fetch : QueuedRequest → Except Str PortfolioResponse) (now : Nat)
    (st : QueueState) (j : QueuedRequest) (rest : List QueuedRequest) (msg : Str)
    (h : st.queue = j :: rest) (hf : fetch j = .error msg)
    (hrc : ¬ j.retryCount < MAX_RETRIES) :
    stepQ fetch now st
      = ⟨rest, kvPut st.kv j.requestId (.record ⟨"failed".data, some msg, none, now⟩)⟩ := by
  simp only [stepQ, h, hf, if_neg hrc]

/-- Lifecycle invariant of one tracked job: either it is still queued — then
its requestId occurs exactly once, its `retryCount` equals the number of
Fetcher invocations it has already received (`≤ MAX_RETRIES`), and no record
for it has been persisted — or it has left the queue with a terminal record
persisted after at most `MAX_RETRIES + 1` invocations. -/
def InvQ (fetch : QueuedRequest → Except Str PortfolioResponse) (st0 : QueueState)
    (r : Str) (n : Nat) : Prop :=
  (countR (runQ fetch st0 n).queue r = 1
    ∧ (∀ j ∈ (runQ fetch st0 n).queue, j.requestId = r →
        j.retryCount = fetchCount fetch st0 r n)
    ∧ fetchCount fetch st0 r n ≤ MAX_RETRIES
    ∧ kvGet (runQ fetch st0 n).kv r = none)
  ∨ (countR (runQ fetch st0 n).queue r = 0
    ∧ fetchCount fetch st0 r n ≤ MAX_RETRIES + 1
    ∧ ∃ rec, kvGet (runQ fetch st0 n).kv r = some (.record rec)
        ∧ (rec.status = "completed".data ∨ rec.status = "failed".data))

/-- A step whose head job is not the tracked one changes nothing the tracked
job's invariant observes. -/
theorem step_preserves_other (fetch : QueuedRequest → Except Str PortfolioResponse)
    (now : Nat) (st : QueueState) (j : QueuedRequest) (rest : List QueuedRequest)
    (r : Str) (hq : st.queue = j :: rest) (hjr : j.requestId ≠ r) :
    countR (stepQ fetch now st).queue r = countR rest r
    ∧ kvGet (stepQ fetch now st).kv r = kvGet st.kv r
    ∧ (∀ j2 ∈ (stepQ fetch now st).queue, j2.requestId = r → j2 ∈ rest) := by
  have hner : r ≠ j.requestId := fun h => hjr h.symm
  cases hf : fetch j with
  | ok d =>
    rw [stepQ_ok fetch now st j rest d hq hf]
    exact ⟨rfl, kvGet_put_ne st.kv j.requestId r _ hner, fun j2 h2 _ => h2⟩
  | error msg =>
    by_cases hrc : j.retryCount < MAX_RETRIES
    · rw [stepQ_retry fetch now st j rest msg hq hf hrc]
      refine ⟨?_, rfl, ?_⟩
      · rw [countR_append, countR_cons]
        simp [hjr, countR]
      · intro j2 h2 hr2
        rcases List.mem_append.mp h2 with h2 | h2
        · exact h2
        · exfalso
          have : j2 = { j with retryCount := j.retryCount + 1 } := by simpa using h2
          rw [this] at hr2
          exact hjr hr2
    · rw [stepQ_fail fetch now st j rest msg hq hf hrc]
      exact ⟨rfl, kvGet_put_ne st.kv j.requestId r _ hner, fun j2 h2 _ => h2⟩

/-- The invariant is preserved by one worker iteration. -/
theorem InvQ_step (fetch : QueuedRequest → Except Str PortfolioResponse)
    (st0 : QueueState) (r : Str) (n : Nat) (h : InvQ fetch st0 r n) :
    InvQ fetch st0 r (n + 1) := by
  rcases hq : (runQ fetch st0 n).queue with _ | ⟨j, rest⟩
  · have hst : runQ fetch st0 (n + 1) = runQ fetch st0 n :=
      stepQ_nil fetch n _ hq
    have hh : headRequestId (runQ fetch st0 n) = none := by
      unfold headRequestId
      rw [hq]
      rfl
    have hfc : fetchCount fetch st0 r (n + 1) = fetchCount fetch st0 r n := by
      rw [fetchCount_succ, hh]
      simp
    unfold InvQ at h ⊢
    rw [hst, hfc]
    exact h
  · have hh : headRequestId (runQ fetch st0 n) = some j.requestId := by
      unfold headRequestId
      rw [hq]
      rfl
    by_cases hjr : j.requestId = r
    · -- the tracked job is at the head: one more Fetcher invocation
      have hfc : fetchCount fetch st0 r (n + 1) = fetchCount fetch st0 r n + 1 := by
        rw [fetchCount_succ, hh, hjr, if_pos rfl]
      rcases h with ⟨hcnt, hmem, hle, hkv⟩ | ⟨hcnt, _, _⟩
      swap
      · exfalso
        rw [hq] at hcnt
        exact countR_zero_not_mem _ r hcnt j (List.mem_cons_self j rest) hjr
      rw [hq, countR_cons, if_pos hjr] at hcnt
      have hrest : countR rest r = 0 := by omega
      have hjrc : j.retryCount = fetchCount fetch st0 r n :=
        hmem j (by rw [hq]; exact List.mem_cons_self j rest) hjr
      cases hf : fetch j with
      | ok d =>
        have hst : runQ fetch st0 (n + 1)
            = ⟨rest, kvPut (runQ fetch st0 n).kv j.requestId
                (.record ⟨"completed".data, none, some d, n⟩)⟩ :=
          stepQ_ok fetch n _ j rest d hq hf
        refine Or.inr ?_
        rw [hst, hfc]
        refine ⟨hrest, by unfold MAX_RETRIES at hle ⊢; omega,
          ⟨"completed".data, none, some d, n⟩, ?_, Or.inl rfl⟩
        show kvGet (kvPut (runQ fetch st0 n).kv j.requestId _) r = _
        rw [hjr]
        exact kvGet_put_self _ r _
      | error msg =>
        by_cases hrc : j.retryCount < MAX_RETRIES
        · have hst : runQ fetch st0 (n + 1)
              = ⟨rest ++ [{ j with retryCount := j.retryCount + 1 }],
                  (runQ fetch st0 n).kv⟩ :=
            stepQ_retry fetch n _ j rest msg hq hf hrc
          refine Or.inl ?_
          rw [hst, hfc]
          refine ⟨?_, ?_, ?_, hkv⟩
          · show countR (rest ++ [{ j with retryCount := j.retryCount + 1 }]) r = 1
            rw [countR_append, countR_cons, hrest]
            simp [hjr, countR]
          · intro j2 h2 hr2
            rcases List.mem_append.mp h2 with h2 | h2
            · exact absurd hr2 (countR_zero_not_mem rest r hrest j2 h2)
            · have : j2 = { j with retryCount := j.retryCount + 1 } := by simpa using h2
              rw [this]
              show j.retryCount + 1 = _
              omega
          · unfold MAX_RETRIES at hrc ⊢
            omega
        · have hst : runQ fetch st0 (n + 1)
              = ⟨rest, kvPut (runQ fetch st0 n).kv j.requestId
                  (.record ⟨"failed".data, some msg, none, n⟩)⟩ :=
            stepQ_fail fetch n _ j rest msg hq hf hrc
          refine Or.inr ?_
          rw [hst, hfc]
          refine ⟨hrest, by unfold MAX_RETRIES at hle ⊢; omega,
            ⟨"failed".data, some msg, none, n⟩, ?_, Or.inr rfl⟩
          show kvGet (kvPut (runQ fetch st0 n).kv j.requestId _) r = _
          rw [hjr]
          exact kvGet_put_self _ r _
    · -- another job is at the head: nothing about the tracked job changes
      have hfc : fetchCount fetch st0 r (n + 1) = fetchCount fetch st0 r n := by
        rw [fetchCount_succ, hh, if_neg (by simpa using hjr), Nat.add_zero]
      obtain ⟨hc2, hk2, hm2⟩ :=
        step_preserves_other fetch n (runQ fetch st0 n) j rest r hq hjr
      rcases h with ⟨hcnt, hmem, hle, hkv⟩ | ⟨hcnt, hle, hrec⟩
      · refine Or.inl ?_
        rw [runQ_succ, hfc]
        refine ⟨?_, ?_, hle, ?_⟩
        · rw [hc2]
          rw [hq, countR_cons, if_neg hjr] at hcnt
          omega
        · intro j2 hj2 hr2
          exact hmem j2 (by rw [hq]; exact List.mem_cons_of_mem j (hm2 j2 hj2 hr2)) hr2
        · rw [hk2]
          exact hkv
      · refine Or.inr ?_
        rw [runQ_succ, hfc]
        refine ⟨?_, hle, ?_⟩
        · rw [hc2]
          rw [hq, countR_cons, if_neg hjr] at hcnt
          omega
        · rw [hk2]
          exact hrec

theorem InvQ_all (fetch : QueuedRequest → Except Str PortfolioResponse)
    (st0 : QueueState) (r : Str)
    (hone : countR st0.queue r = 1)
    (hrc0 : ∀ j ∈ st0.queue, j.requestId = r → j.retryCount = 0)
    (hkv0 : kvGet st0.kv r = none) :
    ∀ n, InvQ fetch st0 r n := by
  intro n
  induction n with
  | zero =>
    refine Or.inl ⟨hone, ?_, ?_, hkv0⟩
    · intro j hj hr
      rw [show fetchCount fetch st0 r 0 = 0 from rfl]
      exact hrc0 j hj hr
    · rw [show fetchCount fetch st0 r 0 = 0 from rfl]
      exact Nat.zero_le _
  | succ n ih => exact InvQ_step fetch st0 r n ih

theorem queueMeasure_pos (q : List QueuedRequest) (h : q ≠ []) :
    1 ≤ queueMeasure q := by
  cases q with
  | nil => cases h rfl
  | cons j t =>
    have hm : min j.retryCount 4 ≤ 4 := Nat.min_le_right _ _
    unfold queueMeasure
    rw [List.map_cons, List.sum_cons]
    omega

theorem stepQ_measure_lt (fetch : QueuedRequest → Except Str PortfolioResponse)
    (now : Nat) (st : QueueState) (h : st.queue ≠ []) :
    queueMeasure (stepQ fetch now st).queue < queueMeasure st.queue := by
  rcases hq : st.queue with _ | ⟨j, rest⟩
  · cases h hq
  · have hm : min j.retryCount 4 ≤ 4 := Nat.min_le_right _ _
    cases hf : fetch j with
    | ok d =>
      rw [stepQ_ok fetch now st j rest d hq hf]
      show queueMeasure rest < queueMeasure (j :: rest)
      unfold queueMeasure
      rw [List.map_cons, List.sum_cons]
      omega
    | error msg =>
      by_cases hrc : j.retryCount < MAX_RETRIES
      · rw [stepQ_retry fetch now st j rest msg hq hf hrc]
        show queueMeasure (rest ++ [{ j with retryCount := j.retryCount + 1 }])
          < queueMeasure (j :: rest)
        unfold queueMeasure
        rw [List.map_append, List.sum_append, List.map_cons, List.sum_cons,
          List.map_cons, List.map_nil, List.sum_cons, List.sum_nil]
        show (rest.map _).sum + (5 - min (j.retryCount + 1) 4 + 0)
          < 5 - min j.retryCount 4 + (rest.map _).sum
        unfold MAX_RETRIES at hrc
        have h1 : min j.retryCount 4 = j.retryCount := Nat.min_eq_left (by omega)
        have h2 : min (j.retryCount + 1) 4 = j.retryCount + 1 := Nat.min_eq_left (by omega)
        omega
      · rw [stepQ_fail fetch now st j rest msg hq hf hrc]
        show queueMeasure rest < queueMeasure (j :: rest)
        unfold queueMeasure
        rw [List.map_cons, List.sum_cons]
        omega

theorem queue_measure_run (fetch : QueuedRequest → Except Str PortfolioResponse)
    (st0 : QueueState) : ∀ n, (runQ fetch st0 n).queue = []
      ∨ queueMeasure (runQ fetch st0 n).queue + n ≤ queueMeasure st0.queue := by
  intro n
  induction n with
  | zero => exact Or.inr (by rw [show runQ fetch st0 0 = st0 from rfl]; omega)
  | succ n ih =>
    by_cases hq : (runQ fetch st0 n).queue = []
    · refine Or.inl ?_
      rw [runQ_succ, stepQ_nil fetch n _ hq]
      exact hq
    · rcases ih with he | hm
      · exact absurd he hq
      · refine Or.inr ?_
        have hlt := stepQ_measure_lt fetch n (runQ fetch st0 n) hq
        rw [runQ_succ]
        omega

theorem queue_eventually_empty (fetch : QueuedRequest → Except Str PortfolioResponse)
    (st0 : QueueState) :
    (runQ fetch st0 (queueMeasure st0.queue)).queue = [] := by
  rcases queue_measure_run fetch st0 (queueMeasure st0.queue) with he | hm
  · exact he
  · by_contra hne
    have := queueMeasure_pos _ hne
    omega

/-- Claim C3: a job enqueued with `retryCount = 0` receives at most
`MAX_RETRIES + 1 = 4` Fetcher invocations and a terminal record (completed or
failed) is eventually persisted for it; a failed attempt with
`retryCount < MAX_RETRIES` re-enqueues the job at the tail with `retryCount`
incremented and persists nothing; a failed record can first appear for the
job only at a step whose head is the job with `retryCount = MAX_RETRIES`. -/
theorem retry_cap_lifecycle (fetch : QueuedRequest → Except Str PortfolioResponse)
    (st0 : QueueState) (r : Str)
    (hone : countR st0.queue r = 1)
    (hrc0 : ∀ j ∈ st0.queue, j.requestId = r → j.retryCount = 0)
    (hkv0 : kvGet st0.kv r = none) :
    (∀ n, fetchCount fetch st0 r n ≤ MAX_RETRIES + 1)
    ∧ (∃ n rec, kvGet (runQ fetch st0 n).kv r = some (.record rec)
        ∧ (rec.status = "completed".data ∨ rec.status = "failed".data))
    ∧ (∀ n (j : QueuedRequest) rest msg, (runQ fetch st0 n).queue = j :: rest →
        j.requestId = r → fetch j = .error msg → j.retryCount < MAX_RETRIES →
        (runQ fetch st0 (n + 1)).queue
            = rest ++ [{ j with retryCount := j.retryCount + 1 }]
        ∧ (runQ fetch st0 (n + 1)).kv = (runQ fetch st0 n).kv)
    ∧ (∀ n rec, kvGet (runQ fetch st0 (n + 1)).kv r = some (.record rec) →
        rec.status = "failed".data →
        kvGet (runQ fetch st0 n).kv r = some (.record rec)
        ∨ ∃ j rest msg, (runQ fetch st0 n).queue = (j : QueuedRequest) :: rest
            ∧ j.requestId = r ∧ j.retryCount = MAX_RETRIES ∧ fetch j = .error msg) := by
  have hinv := InvQ_all fetch st0 r hone hrc0 hkv0
  refine ⟨?_, ?_, ?_, ?_⟩
  · -- at most MAX_RETRIES + 1 Fetcher invocations, ever
    intro n
    rcases hinv n with ⟨_, _, hle, _⟩ | ⟨_, hle, _⟩
    · exact Nat.le_succ_of_le hle
    · exact hle
  · -- a terminal record is eventually persisted
    have hempty := queue_eventually_empty fetch st0
    rcases hinv (queueMeasure st0.queue) with ⟨hcnt, _, _, _⟩ | ⟨_, _, rec, hrec, hst⟩
    · rw [hempty] at hcnt
      cases hcnt
    · exact ⟨queueMeasure st0.queue, rec, hrec, hst⟩
  · -- failed attempt with remaining budget: tail re-enqueue, nothing persisted
    intro n j rest msg hq hjr hf hrc
    rw [runQ_succ, stepQ_retry fetch n _ j rest msg hq hf hrc]
    exact ⟨rfl, rfl⟩
  · -- a failed record first appears only when the budget is exhausted
    intro n rec hget hst
    rcases hq : (runQ fetch st0 n).queue with _ | ⟨j, rest⟩
    · refine Or.inl ?_
      rw [runQ_succ, stepQ_nil fetch n _ hq] at hget
      exact hget
    · cases hf : fetch j with
      | ok d =>
        rw [runQ_succ, stepQ_ok fetch n _ j rest d hq hf] at hget
        have hget2 : kvGet (kvPut (runQ fetch st0 n).kv j.requestId
            (.record ⟨"completed".data, none, some d, n⟩)) r
            = some (.record rec) := hget
        by_cases hjr : j.requestId = r
        · exfalso
          rw [hjr, kvGet_put_self] at hget2
          have hrec := Option.some.inj hget2
          cases hrec
          have hcf : ("completed".data : Str) ≠ "failed".data := by decide
          exact hcf hst
        · rw [kvGet_put_ne _ _ _ _ (fun h => hjr h.symm)] at hget2
          exact Or.inl hget2
      | error msg =>
        by_cases hrc : j.retryCount < MAX_RETRIES
        · refine Or.inl ?_
          rw [runQ_succ, stepQ_retry fetch n _ j rest msg hq hf hrc] at hget
          exact hget
        · by_cases hjr : j.requestId = r
          · refine Or.inr ⟨j, rest, msg, rfl, hjr, ?_, hf⟩
            rcases hinv n with ⟨_, hmem, hle, _⟩ | ⟨hcnt, _, _⟩
            · have := hmem j (by rw [hq]; exact List.mem_cons_self j rest) hjr
              unfold MAX_RETRIES at hrc hle ⊢
              omega
            · exfalso
              rw [hq] at hcnt
              exact countR_zero_not_mem _ r hcnt j (List.mem_cons_self j rest) hjr
          · rw [runQ_succ, stepQ_fail fetch n _ j rest msg hq hf hrc] at hget
            have hget2 : kvGet (kvPut (runQ fetch st0 n).kv j.requestId
                (.record ⟨"failed".data, some msg, none, n⟩)) r
                = some (.record rec) := hget
            rw [kvGet_put_ne _ _ _ _ (fun h => hjr h.symm)] at hget2
            exact Or.inl hget2

/-! Concrete single-job run in which every Fetcher attempt fails. -/

def c3w_r : Str := "11111111-1111-4111-8111-111111111111".data

def c3w_job : QueuedRequest :=
  ⟨1, "0xaaaaaaaaaaaaaaaaaaaaaaaaaaaaaaaaaaaaaaaa".data, c3w_r, 0, 0⟩

def c3w_st0 : QueueState := ⟨[c3w_job], []⟩

def c3w_fetch : QueuedRequest → Except Str PortfolioResponse :=
  fun _ => .error "upstream error".data

/-- Witness for claim C3 at a single always-failing job. -/
theorem retry_cap_lifecycle_witness :
    (countR c3w_st0.queue c3w_r = 1
      ∧ (∀ j ∈ c3w_st0.queue, j.requestId = c3w_r → j.retryCount = 0)
      ∧ kvGet c3w_st0.kv c3w_r = none)
    ∧ ((∀ n, fetchCount c3w_fetch c3w_st0 c3w_r n ≤ MAX_RETRIES + 1)
      ∧ (∃ n rec, kvGet (runQ c3w_fetch c3w_st0 n).kv c3w_r = some (.record rec)
          ∧ (rec.status = "completed".data ∨ rec.status = "failed".data))
      ∧ (∀ n (j : QueuedRequest) rest msg,
          (runQ c3w_fetch c3w_st0 n).queue = j :: rest →
          j.requestId = c3w_r → c3w_fetch j = .error msg → j.retryCount < MAX_RETRIES →
          (runQ c3w_fetch c3w_st0 (n + 1)).queue
              = rest ++ [{ j with retryCount := j.retryCount + 1 }]
          ∧ (runQ c3w_fetch c3w_st0 (n + 1)).kv = (runQ c3w_fetch c3w_st0 n).kv)
      ∧ (∀ n rec, kvGet (runQ c3w_fetch c3w_st0 (n + 1)).kv c3w_r
            = some (.record rec) →
          rec.status = "failed".data →
          kvGet (runQ c3w_fetch c3w_st0 n).kv c3w_r = some (.record rec)
          ∨ ∃ j rest msg,
              (runQ c3w_fetch c3w_st0 n).queue = (j : QueuedRequest) :: rest
              ∧ j.requestId = c3w_r ∧ j.retryCount = MAX_RETRIES
              ∧ c3w_fetch j = .error msg)) :=
  ⟨⟨by decide, by decide, rfl⟩,
    retry_cap_lifecycle c3w_fetch c3w_st0 c3w_r (by decide) (by decide) rfl⟩

/-! The Cloudflare queue consumer `handlePortfolioQueue`
(src/queue/portfolioQueue.ts): for each message it fetches once, persists a
terminal record under the composite key — completed on success, failed on
error, with no retry branch of its own — and then sleeps 1000 ms before the
next message, success or failure alike. -/

/-- The rate-limiting sleep after each message: `setTimeout(resolve, 1000)`,
"Rate limiting - 1 RPS". -/
def rateLimitDelay : Nat := 1000

/-- The composite record key `portfolio-${address}-${chainId}-${requestId}`. -/
def compositeKey (m : QueueMsg) : Str :=
  "portfolio-".data ++ m.address ++ "-".data ++ natStr m.chainId
    ++ "-".data ++ m.requestId

/-- Handling of one queue message: the `try` block persists a completed
record, the `catch` block persists a failed record, both under the composite
key. -/
def handleMessage (fetch : QueueMsg → Except Str PortfolioResponse) (m : QueueMsg)
    (kv : KV) (now : Nat) : KV :=
  match fetch m with
  | .ok d => kvPut kv (compositeKey m) (.record ⟨"completed".data, none, some d, now⟩)
  | .error e => kvPut kv (compositeKey m) (.record ⟨"failed".data, some e, none, now⟩)

/-- The batch loop: message `k` is handled starting at time `t`, handling
takes `dur k ≥ 0` ms (fetch plus KV put), then the worker sleeps
`rateLimitDelay` ms before the next message. -/
def handleBatchGo (fetch : QueueMsg → Except Str PortfolioResponse) (dur : Nat → Nat) :
    List QueueMsg → Nat → Nat → KV → KV
  | [], _, _, kv => kv
  | m :: ms, k, t, kv =>
    handleBatchGo fetch dur ms (k + 1) (t + dur k + rateLimitDelay)
      (handleMessage fetch m kv (t + dur k))

/-- `handlePortfolioQueue(batch, env)`: handle the messages in order. -/
def handlePortfolioQueue (fetch : QueueMsg → Except Str PortfolioResponse)
    (dur : Nat → Nat) (t0 : Nat) (msgs : List QueueMsg) (kv : KV) : KV :=
  handleBatchGo fetch dur msgs 0 t0 kv

/-- The time at which the `k`-th Fetcher call of the batch loop starts: the
previous call's start, plus its handling time, plus the unconditional
`rateLimitDelay` sleep — the timing projection of `handleBatchGo`. -/
def batchFetchTime (dur : Nat → Nat) (t0 : Nat) : Nat → Nat
  | 0 => t0
  | k + 1 => batchFetchTime dur t0 k + dur k + rateLimitDelay

/-- `getRequestStatus(requestId)` as refactored for the queue pipeline
(src/services/webhookService.ts lines 352-366): a bare
`PORTFOLIO_KV.get(requestId)`, `not_found` when absent. -/
inductive RequestStatus where
  | notFound : RequestStatus
  | stored : StoredRecord → RequestStatus
deriving Repr, DecidableEq

def getRequestStatus (requestId : Str) (kv : KV) : Except Unit RequestStatus :=
  match kvGet kv requestId with
  | none => .ok .notFound
  | some .corrupt => .error ()
  | some (.record r) => .ok (.stored r)

theorem length_le_one_of_allEq (l : List Nat) (hnd : l.Nodup)
    (h : ∀ x ∈ l, ∀ y ∈ l, x = y) : l.length ≤ 1 := by
  cases l with
  | nil => simp
  | cons a t =>
    cases t with
    | nil => simp
    | cons b t2 =>
      exfalso
      have hab : a = b := h a (by simp) b (by simp)
      exact (List.nodup_cons.mp hnd).1 (hab ▸ List.mem_cons_self b t2)

theorem batchFetchTime_mono (dur : Nat → Nat) (t0 : Nat) :
    ∀ j k, j < k → batchFetchTime dur t0 j + rateLimitDelay ≤ batchFetchTime dur t0 k := by
  intro j k
  induction k with
  | zero => omega
  | succ k ih =>
    intro hjk
    have hstep : batchFetchTime dur t0 (k + 1)
        = batchFetchTime dur t0 k + dur k + rateLimitDelay := rfl
    rcases Nat.lt_or_ge j k with h | h
    · have := ih h
      omega
    · have hjeq : j = k := by omega
      subst hjeq
      omega

/-- Claim C4: after every message — success or failure — the consumer waits
the fixed `rateLimitDelay = 1000/N` ms (N = 1) before the next one, so
consecutive Fetcher calls are at least 1000 ms apart and any 1000 ms window
contains at most one call during a batch. -/
theorem rate_limited_one_call_per_window (dur : Nat → Nat) (t0 : Nat) :
    rateLimitDelay = 1000
    ∧ (∀ k, batchFetchTime dur t0 k + rateLimitDelay ≤ batchFetchTime dur t0 (k + 1))
    ∧ (∀ j k, j < k →
        batchFetchTime dur t0 j + rateLimitDelay ≤ batchFetchTime dur t0 k)
    ∧ (∀ t n, ((List.range n).filter (fun k =>
        decide (t ≤ batchFetchTime dur t0 k
          ∧ batchFetchTime dur t0 k < t + rateLimitDelay))).length ≤ 1) := by
  refine ⟨rfl, ?_, batchFetchTime_mono dur t0, ?_⟩
  · intro k
    have hstep : batchFetchTime dur t0 (k + 1)
        = batchFetchTime dur t0 k + dur k + rateLimitDelay := rfl
    omega
  · intro t n
    refine length_le_one_of_allEq _ ((List.nodup_range n).filter _) ?_
    intro x hx y hy
    have hxw := (List.mem_filter.mp hx).2
    have hyw := (List.mem_filter.mp hy).2
    rw [decide_eq_true_iff] at hxw hyw
    by_contra hne
    rcases Nat.lt_or_ge x y with hlt | hge
    · have := batchFetchTime_mono dur t0 x y hlt
      omega
    · have hlt : y < x := by omega
      have := batchFetchTime_mono dur t0 y x hlt
      omega

/-- Witness for claim C4 at a concrete duration function and start time. -/
theorem rate_limited_one_call_per_window_witness :
    rateLimitDelay = 1000
    ∧ (∀ k, batchFetchTime (fun _ => 7) 0 k + rateLimitDelay
        ≤ batchFetchTime (fun _ => 7) 0 (k + 1))
    ∧ (∀ j k, j < k → batchFetchTime (fun _ => 7) 0 j + rateLimitDelay
        ≤ batchFetchTime (fun _ => 7) 0 k)
    ∧ (∀ t n, ((List.range n).filter (fun k =>
        decide (t ≤ batchFetchTime (fun _ => 7) 0 k
          ∧ batchFetchTime (fun _ => 7) 0 k < t + rateLimitDelay))).length ≤ 1) :=
  rate_limited_one_call_per_window (fun _ => 7) 0

/-! Claim C5: the terminal record a queue-processed job persists is keyed by
the composite key, while `getRequestStatus` looks the bare requestId up, so
the record is never reachable through the requestId the caller received. -/

def c5w_address : Str := "0xaaaaaaaaaaaaaaaaaaaaaaaaaaaaaaaaaaaaaaaa".data

def c5w_msg1 : QueueMsg :=
  ⟨1, c5w_address, "11111111-1111-4111-8111-111111111111".data, 0⟩

def c5w_msg2 : QueueMsg :=
  ⟨137, c5w_address, "44444444-4444-4444-8444-444444444444".data, 0⟩

def c5w_fetch : QueueMsg → Except Str PortfolioResponse :=
  fun m => if m.chainId = 1 then .ok ⟨[⟨500⟩]⟩ else .error "upstream error".data

/-- The store after the consumer handles a successful job and a failing job. -/
def c5w_kv : KV :=
  handleMessage c5w_fetch c5w_msg2 (handleMessage c5w_fetch c5w_msg1 [] 10) 11

/-- Claim C5 evaluated at the failing input: both terminal records (completed
with data, failed with error, each with timestamp) sit in the store under
their composite keys, yet `getRequestStatus` applied to exactly the
requestIds returned at submission time reports `not_found` for both. -/
theorem terminal_record_unreachable_by_requestId :
    kvGet c5w_kv (compositeKey c5w_msg1)
        = some (.record ⟨"completed".data, none, some ⟨[⟨500⟩]⟩, 10⟩)
    ∧ kvGet c5w_kv (compositeKey c5w_msg2)
        = some (.record ⟨"failed".data, some "upstream error".data, none, 11⟩)
    ∧ getRequestStatus c5w_msg1.requestId c5w_kv = .ok .notFound
    ∧ getRequestStatus c5w_msg2.requestId c5w_kv = .ok .notFound
    ∧ compositeKey c5w_msg1 ≠ c5w_msg1.requestId
    ∧ compositeKey c5w_msg2 ≠ c5w_msg2.requestId :=
  ⟨rfl, rfl, rfl, rfl, by decide, by decide⟩

/-! The original in-process submission path
(src/services/inchService.ts lines 57-88 and 195-218): `enqueuePortfolioRequest`
builds a `QueuedRequest` with `retryCount: 0`, pushes it onto the in-process
queue and returns the fresh requestId at once — the un-awaited
`processQueue()` kick-off runs asynchronously and never blocks the caller —
and `getRequestStatus` reports `queued` with the queue position for a job
that is on the queue but has no KV record yet. -/

inductive LocalStatus where
  | notFound : LocalStatus
  | queuedAt : Nat → LocalStatus
  | stored : StoredRecord → LocalStatus
deriving Repr, DecidableEq

def getRequestStatusLocal (requestId : Str) (st : QueueState) : Except Unit LocalStatus :=
  match kvGet st.kv requestId with
  | none =>
    match st.queue.findIdx? (fun j => j.requestId == requestId) with
    | some i => .ok (.queuedAt (i + 1))
    | none => .ok .notFound
  | some .corrupt => .error ()
  | some (.record r) => .ok (.stored r)

def enqueuePortfolioRequestLocal (chainId : Nat) (address uuid : Str) (now : Nat)
    (st : QueueState) : Str × QueueState :=
  (uuid, ⟨st.queue ++ [⟨chainId, address, uuid, 0, now⟩], st.kv⟩)

theorem findIdx_append_last (p : QueuedRequest → Bool) (x : QueuedRequest)
    (hx : p x = true) (q : List QueuedRequest) (h : ∀ j ∈ q, p j = false) :
    ∀ i, List.findIdx? p (q ++ [x]) i = some (i + q.length) := by
  induction q with
  | nil =>
    intro i
    simp [List.findIdx?, hx]
  | cons a t ih =>
    intro i
    rw [List.cons_append]
    rw [show List.findIdx? p (a :: (t ++ [x])) i
        = if p a then some i else List.findIdx? p (t ++ [x]) (i + 1) from rfl]
    rw [if_neg (by simp [h a (List.mem_cons_self a t)])]
    rw [ih (fun j hj => h j (List.mem_cons_of_mem a hj)) (i + 1)]
    congr 1
    simp
    omega

/-- Claim C7: a submission pushes exactly one job (with `retryCount 0`) onto
the tail of the queue, changes nothing else, and returns the fresh requestId
immediately; while the job is queued and unprocessed, `getRequestStatus`
reports it as `queued` with its queue position. The refactored
queue-based `enqueuePortfolioRequest` likewise only appends its message and
returns the requestId. -/
theorem submission_enqueues_and_returns_id (chainId : Nat) (address uuid : Str)
    (now : Nat) (st : QueueState) (q : List QueueMsg)
    (hkv : kvGet st.kv uuid = none)
    (hfresh : ∀ j ∈ st.queue, j.requestId ≠ uuid) :
    ((enqueuePortfolioRequestLocal chainId address uuid now st).1 = uuid)
    ∧ ((enqueuePortfolioRequestLocal chainId address uuid now st).2.queue
        = st.queue ++ [⟨chainId, address, uuid, 0, now⟩])
    ∧ ((enqueuePortfolioRequestLocal chainId address uuid now st).2.kv = st.kv)
    ∧ getRequestStatusLocal uuid (enqueuePortfolioRequestLocal chainId address uuid now st).2
        = .ok (.queuedAt (st.queue.length + 1))
    ∧ enqueuePortfolioRequest chainId address uuid now q
        = (uuid, q ++ [⟨chainId, address, uuid, now⟩]) := by
  refine ⟨rfl, rfl, rfl, ?_, rfl⟩
  unfold getRequestStatusLocal enqueuePortfolioRequestLocal
  rw [show (⟨st.queue ++ [⟨chainId, address, uuid, 0, now⟩], st.kv⟩ : QueueState).kv
      = st.kv from rfl, hkv]
  rw [show (⟨st.queue ++ [⟨chainId, address, uuid, 0, now⟩], st.kv⟩ : QueueState).queue
      = st.queue ++ [⟨chainId, address, uuid, 0, now⟩] from rfl]
  rw [findIdx_append_last _ _ (by simp) st.queue
    (fun j hj => by simp [hfresh j hj]) 0]
  rw [Nat.zero_add]

/-- Witness for claim C7 at an empty initial state. -/
theorem submission_enqueues_and_returns_id_witness :
    (kvGet (⟨[], []⟩ : QueueState).kv c3w_r = none
      ∧ (∀ j ∈ (⟨[], []⟩ : QueueState).queue, j.requestId ≠ c3w_r))
    ∧ (((enqueuePortfolioRequestLocal 1 c5w_address c3w_r 5 ⟨[], []⟩).1 = c3w_r)
      ∧ ((enqueuePortfolioRequestLocal 1 c5w_address c3w_r 5 ⟨[], []⟩).2.queue
          = (⟨[], []⟩ : QueueState).queue ++ [⟨1, c5w_address, c3w_r, 0, 5⟩])
      ∧ ((enqueuePortfolioRequestLocal 1 c5w_address c3w_r 5 ⟨[], []⟩).2.kv
          = (⟨[], []⟩ : QueueState).kv)
      ∧ getRequestStatusLocal c3w_r
            (enqueuePortfolioRequestLocal 1 c5w_address c3w_r 5 ⟨[], []⟩).2
          = .ok (.queuedAt ((⟨[], []⟩ : QueueState).queue.length + 1))
      ∧ enqueuePortfolioRequest 1 c5w_address c3w_r 5 []
          = (c3w_r, [] ++ [⟨1, c5w_address, c3w_r, 5⟩])) :=
  ⟨⟨rfl, by decide⟩,
    submission_enqueues_and_returns_id 1 c5w_address c3w_r 5 ⟨[], []⟩ [] rfl (by decide)⟩

/-! Claim C8: validation at submission time. -/

/-- Modelled from the spec: a well-formed address is a lowercase-hex string
prefixed `0x` with exactly 40 hex characters after the prefix. No such check
exists anywhere on the submission path (`POST /fetch` nor
`enqueuePortfolioRequest`); this definition only states the claim. -/
def specAddressValid (a : Str) : Bool :=
  "0x".data.isPrefixOf a && (a.drop 2).length == 40
    && (a.drop 2).all (fun ch => ('0' ≤ ch && ch ≤ '9') || ('a' ≤ ch && ch ≤ 'f'))

def c8w_uuid : Str := "55555555-5555-4555-8555-555555555555".data

/-- Counterexample to claim C8: a submission whose chainId is unsupported and
whose address is badly formatted is not rejected — `POST /fetch` returns a
requestId and the job is placed on the queue. -/
theorem validation_rejection_counterexample :
    isSupportedChain 999 = false
    ∧ specAddressValid "zzz".data = false
    ∧ (postFetchRoute 999 "zzz".data c8w_uuid 0 []).2 = [⟨999, "zzz".data, c8w_uuid, 0⟩]
    ∧ (postFetchRoute 999 "zzz".data c8w_uuid 0 []).1 = c8w_uuid :=
  ⟨by decide, by decide, rfl, rfl⟩

/-- Claim C8 as amended: the submission path performs no validation at all —
for every chainId (supported or not) and every address (well-formed or not)
`POST /fetch` enqueues the job and returns the requestId; nothing is ever
rejected at submission time. -/
theorem submission_never_validates (chainId : Nat) (address uuid : Str) (now : Nat)
    (q : List QueueMsg) :
    (postFetchRoute chainId address uuid now q).1 = uuid
    ∧ (postFetchRoute chainId address uuid now q).2 = q ++ [⟨chainId, address, uuid, now⟩] :=
  ⟨rfl, rfl⟩
